import Mathlib

/-!
Shallow embedding of simplefuse's in-memory filesystem
(src/simplefuse/filesystem.py): the Node / Directory / File / Symlink
classes and the `Filesystem` facade with its path resolver `_get_node`.

Modelling conventions, matching the Python source:

* A Python byte string is a `List Nat`; timestamps and the other numeric
  stat fields are integers (`Int`), since `st_nlink` arithmetic can go
  below zero.
* The per-node `attr` dict is an insertion-ordered association list
  `Attr = List (String × AVal)`: assigning to an existing key updates it
  in place, assigning a fresh key appends, `del` removes, and stat fields
  and extended attributes share this single mapping.
* The parameter `t0` models the timestamp captured when the module is
  loaded: the methods `set_ctime`, `set_mtime` and `set_atime` are declared
  with a default argument `=time()` which Python evaluates once, at class
  definition time, so every call that passes no argument (which is every
  call in this code base) stores that one fixed value `t0`.  The parameter
  `now` models a genuine `time()` call made inside a method body
  (`Node.__init__`, `Node.utimes`).
* `uid`/`gid` model `os.getuid()` / `os.getgid()`.
* Errors: `Err.enoent` is `FuseOSError(ENOENT)`, `Err.eperm` is
  `FuseOSError(EPERM)`, `Err.enoattr` is `FuseOSError(ENOATTR)` (ENODATA),
  and `Err.crash` is an uncaught Python exception (AttributeError from a
  missing method, KeyError/TypeError from a missing or non-integer attr
  entry) escaping the call.
-/

/-- Python dict lookup `d[k]` (as an `Option`). -/
def look {α : Type} : List (String × α) → String → Option α
  | [], _ => none
  | (k, v) :: rest, key => if k = key then some v else look rest key

/-- Python dict assignment `d[k] = v`: update in place if the key exists,
append otherwise. -/
def aset {α : Type} : List (String × α) → String → α → List (String × α)
  | [], key, v => [(key, v)]
  | (k, w) :: rest, key, v =>
    if k = key then (k, v) :: rest else (k, w) :: aset rest key v

/-- Python dict deletion `del d[k]` (of the unique entry, if present). -/
def aremove {α : Type} : List (String × α) → String → List (String × α)
  | [], _ => []
  | (k, w) :: rest, key =>
    if k = key then rest else (k, w) :: aremove rest key

/-- Python `d.keys()`. -/
def akeys {α : Type} (l : List (String × α)) : List String :=
  l.map (·.1)

/-- Apply `f` to the value stored under `key` (helper for rebuilding a
directory whose child object was mutated in place). -/
def mapEntry {α : Type} : List (String × α) → String → (α → α) → List (String × α)
  | [], _, _ => []
  | (k, v) :: rest, key, f =>
    if k = key then (k, f v) :: rest else (k, v) :: mapEntry rest key f

/-- A value stored in a node's `attr` dict: the stat fields are integers,
extended attributes set through `setxattr` are byte strings. -/
inductive AVal : Type where
  | int (i : Int)
  | bytes (bs : List Nat)
  deriving DecidableEq, Repr

/-- The `attr` dict of a node. -/
abbrev Attr := List (String × AVal)

/-- The node tree: `Directory` (attr, fd counter, `children` dict),
`File` (attr, fd counter, byte `content`) and `Symlink` (attr, `target`). -/
inductive Node : Type where
  | dir (attr : Attr) (fd : Nat) (children : List (String × Node))
  | file (attr : Attr) (fd : Nat) (content : List Nat)
  | symlink (attr : Attr) (target : String)

/-- `stat.S_IFDIR`. -/
def S_IFDIR : Nat := 0o040000
/-- `stat.S_IFREG`. -/
def S_IFREG : Nat := 0o100000
/-- `stat.S_IFLNK`. -/
def S_IFLNK : Nat := 0o120000

/-- The attr dict built by `Node.__init__` (entries in source order). -/
def Node.baseAttr (uid gid now : Nat) : Attr :=
  [("st_mode", .int ((0o655 ||| S_IFREG : Nat) : Int)),
   ("st_uid", .int (uid : Int)),
   ("st_gid", .int (gid : Int)),
   ("st_nlink", .int 1),
   ("st_size", .int 0),
   ("st_ctime", .int (now : Int)),
   ("st_mtime", .int (now : Int)),
   ("st_atime", .int (now : Int))]

/-- The `attr` dict of a node. -/
def attrOf : Node → Attr
  | .dir a _ _ => a
  | .file a _ _ => a
  | .symlink a _ => a

/-- Whether a node is a `Directory`. -/
def isDirN : Node → Bool
  | .dir _ _ _ => true
  | _ => false

/-- Replace a node's `attr` dict (in-place mutation of the object's dict). -/
def mapAttr (f : Attr → Attr) : Node → Node
  | .dir a fd ch => .dir (f a) fd ch
  | .file a fd c => .file (f a) fd c
  | .symlink a t => .symlink (f a) t

/-- `Node.set_ctime()` on the attr dict: the omitted argument is the frozen
default `t0`. -/
def setCtimeA (t0 : Nat) (a : Attr) : Attr :=
  aset a "st_ctime" (.int (t0 : Int))

/-- `Node.set_mtime()` on the attr dict: the body assigns `st_ctime` and then
`st_mtime`, both to the frozen default `t0`. -/
def setMtimeA (t0 : Nat) (a : Attr) : Attr :=
  aset (aset a "st_ctime" (.int (t0 : Int))) "st_mtime" (.int (t0 : Int))

/-- `Node.set_atime()` on the attr dict, with the frozen default `t0`. -/
def setAtimeA (t0 : Nat) (a : Attr) : Attr :=
  aset a "st_atime" (.int (t0 : Int))

/-- `Node.set_ctime()` applied to a node object. -/
def setCtimeD (t0 : Nat) : Node → Node := mapAttr (setCtimeA t0)

/-- `Node.set_mtime()` applied to a node object. -/
def setMtimeD (t0 : Nat) : Node → Node := mapAttr (setMtimeA t0)

/-- `Node.set_atime()` applied to a node object. -/
def setAtimeD (t0 : Nat) : Node → Node := mapAttr (setAtimeA t0)

/-- `Directory.__init__`: base attrs, `st_mode = 0o755 | S_IFDIR`, `fd = 0`,
empty children dict. -/
def Directory.initN (uid gid now : Nat) : Node :=
  .dir (aset (Node.baseAttr uid gid now) "st_mode"
          (.int ((0o755 ||| S_IFDIR : Nat) : Int))) 0 []

/-- `File.__init__(content)`: base attrs, `st_mode = 0o755 | S_IFREG`,
`fd = 0`, then `set_content(content)` stores the bytes and sets `st_size`. -/
def File.initN (uid gid now : Nat) (content : List Nat) : Node :=
  .file (aset (aset (Node.baseAttr uid gid now) "st_mode"
            (.int ((0o755 ||| S_IFREG : Nat) : Int)))
          "st_size" (.int (content.length : Int))) 0 content

/-- `Symlink.__init__(target)`: base attrs, `st_mode = 0o755 | S_IFLNK`. -/
def Symlink.initN (uid gid now : Nat) (target : String) : Node :=
  .symlink (aset (Node.baseAttr uid gid now) "st_mode"
          (.int ((0o755 ||| S_IFLNK : Nat) : Int))) target

/-- The error outcomes of a facade call. -/
inductive Err : Type where
  | enoent
  | eperm
  | enoattr
  | crash
  deriving DecidableEq, Repr

/-- `File.set_content(content)` on the `(attr, content)` pair: stores the
bytes and sets `st_size` to their length. -/
def File.setContentC (a : Attr) (c : List Nat) : Attr × List Nat :=
  (aset a "st_size" (.int (c.length : Int)), c)

/-- `File.write(buffer, offset)`: content becomes `content[:offset] + buffer`,
`st_size` becomes the new length, then `set_mtime()`. -/
def File.writeC (t0 : Nat) (buffer : List Nat) (offset : Nat)
    (a : Attr) (c : List Nat) : Attr × List Nat :=
  let c2 := c.take offset ++ buffer
  (setMtimeA t0 (aset a "st_size" (.int (c2.length : Int))), c2)

/-- `File.truncate(length)`: content becomes `content[:length]`, then
`set_mtime()`.  Note: the source does not update `st_size` here. -/
def File.truncateC (t0 : Nat) (length : Nat)
    (a : Attr) (c : List Nat) : Attr × List Nat :=
  (setMtimeA t0 a, c.take length)

/-- `File.read(length, offset, fh)`: `set_atime()`, then return
`content[offset : offset + length]`. -/
def File.readC (t0 : Nat) (length offset : Nat)
    (a : Attr) (c : List Nat) : (Attr × List Nat) × List Nat :=
  ((setAtimeA t0 a, c), (c.drop offset).take length)

/-- `Node.getxattr(name, position)`: `attr[name]`, raising
`FuseOSError(ENOATTR)` on a missing key. -/
def Node.getxattrOp (name : String) (a : Attr) : Except Err AVal :=
  match look a name with
  | some v => .ok v
  | none => .error .enoattr

/-- `Node.removexattr(name)`: `del attr[name]`, raising
`FuseOSError(ENOATTR)` on a missing key. -/
def Node.removexattrOp (name : String) (a : Attr) : Except Err Attr :=
  match look a name with
  | some _ => .ok (aremove a name)
  | none => .error .enoattr

/-- `Node.setxattr(name, value, options, position)`: unconditional
`attr[name] = value`. -/
def Node.setxattrOp (name : String) (value : AVal) (a : Attr) : Attr :=
  aset a name value

/-- `Node.utimes(times)`: unpack `times` (or `(now, now)` when absent) and
assign `st_atime` and `st_mtime`. -/
def Node.utimesA (now : Nat) (times : Option (Int × Int)) (a : Attr) : Attr :=
  let p := times.getD ((now : Int), (now : Int))
  aset (aset a "st_atime" (.int p.1)) "st_mtime" (.int p.2)

/-- `Directory.create(name, mode)`: build a `File()`, overwrite its
`st_mode` with `mode | S_IFREG`, `add_child`, bump the directory's `fd`
counter, `set_ctime()`, and return the new counter value.  Calling it on a
non-Directory node is an uncaught AttributeError. -/
def Directory.createOp (t0 uid gid now mode : Nat) (name : String) :
    Node → Except Err Nat × Node
  | .dir a fd ch =>
    let f := mapAttr (fun fa => aset fa "st_mode"
        (.int ((mode ||| S_IFREG : Nat) : Int))) (File.initN uid gid now [])
    (.ok (fd + 1), .dir (setCtimeA t0 a) (fd + 1) (aset ch name f))
  | n => (.error .crash, n)

/-- `Directory.mkdir(name, mode)`: build a `Directory()`, assign
`self.attr['st_mode'] = mode | S_IFDIR` (note: the **parent's** attr, as in
the source), `add_child`, then `self.attr['st_nlink'] += 1` (an uncaught
KeyError/TypeError if that entry is missing or not an integer — by then the
mode assignment and the child insertion have already happened), then
`set_mtime()`. -/
def Directory.mkdirOp (t0 uid gid now mode : Nat) (name : String) :
    Node → Except Err Unit × Node
  | .dir a fd ch =>
    let a1 := aset a "st_mode" (.int ((mode ||| S_IFDIR : Nat) : Int))
    let ch1 := aset ch name (Directory.initN uid gid now)
    match look a1 "st_nlink" with
    | some (.int i) =>
      (.ok (), .dir (setMtimeA t0 (aset a1 "st_nlink" (.int (i + 1)))) fd ch1)
    | _ => (.error .crash, .dir a1 fd ch1)
  | n => (.error .crash, n)

/-- `Directory.rmdir(name)`: `remove_child(name)` (FuseOSError(ENOENT) if
absent, leaving the dict untouched), then `st_nlink -= 1`, then
`set_mtime()`.  No emptiness check on the removed child. -/
def Directory.rmdirOp (t0 : Nat) (name : String) :
    Node → Except Err Unit × Node
  | .dir a fd ch =>
    match look ch name with
    | none => (.error .enoent, .dir a fd ch)
    | some _ =>
      let ch1 := aremove ch name
      match look a "st_nlink" with
      | some (.int i) =>
        (.ok (), .dir (setMtimeA t0 (aset a "st_nlink" (.int (i - 1)))) fd ch1)
      | _ => (.error .crash, .dir a fd ch1)
  | n => (.error .crash, n)

/-- `Directory.unlink(name)`: `remove_child(name)` then `set_mtime()`. -/
def Directory.unlinkOp (t0 : Nat) (name : String) :
    Node → Except Err Unit × Node
  | .dir a fd ch =>
    match look ch name with
    | none => (.error .enoent, .dir a fd ch)
    | some _ => (.ok (), .dir (setMtimeA t0 a) fd (aremove ch name))
  | n => (.error .crash, n)

/-- `Directory.symlink(name, target)`: build a `Symlink(target)`,
`add_child`, `set_mtime()`. -/
def Directory.symlinkOp (t0 uid gid now : Nat) (name target : String) :
    Node → Except Err Unit × Node
  | .dir a fd ch =>
    (.ok (), .dir (setMtimeA t0 a) fd
      (aset ch name (Symlink.initN uid gid now target)))
  | n => (.error .crash, n)

/-- `Directory.readdir(fh)`: yields `'.'`, `'..'`, then every child name,
and finally `set_atime()`. -/
def Directory.readdirOp (t0 : Nat) :
    Node → Except Err (List String) × Node
  | .dir a fd ch =>
    ("." :: ".." :: akeys ch |> .ok, .dir (setAtimeA t0 a) fd ch)
  | n => (.error .crash, n)

/-!  Path machinery: `os.path.split` and `Filesystem._get_node`. -/

/-- `os.path.split(p)` (POSIX): split after the last separator, then strip
trailing separators from the head unless the head is all separators. -/
def splitPath (p : String) : String × String :=
  let r := p.data.reverse
  let tailR := r.takeWhile (fun c => c ≠ '/')
  let headR := r.drop tailR.length
  let strippedR := headR.dropWhile (fun c => c = '/')
  if headR ≠ [] ∧ strippedR ≠ [] then
    (⟨strippedR.reverse⟩, ⟨tailR.reverse⟩)
  else
    (⟨headR.reverse⟩, ⟨tailR.reverse⟩)

/-- Split a character list at every `'/'` (the separator is the single
character `os.sep`). -/
def splitSlash : List Char → List (List Char)
  | [] => [[]]
  | c :: rest =>
    if c = '/' then [] :: splitSlash rest
    else
      match splitSlash rest with
      | s :: tl => (c :: s) :: tl
      | [] => [[c]]

/-- `path.split(os.sep)`: the ordered components of a path string. -/
def pathComps (p : String) : List String :=
  (splitSlash p.data).map (fun l => ⟨l⟩)

/-- The loop of `Filesystem._get_node`: skip empty components, descend with
`get_child` (KeyError on a missing child is mapped to ENOENT, AttributeError
on a node without `get_child` — a File or Symlink — to EPERM). -/
def getNode : Node → List String → Except Err Node
  | n, [] => .ok n
  | n, name :: rest =>
    if name = "" then getNode n rest
    else
      match n with
      | .dir _ _ ch =>
        match look ch name with
        | some c => getNode c rest
        | none => .error .enoent
      | _ => .error .eperm

/-- `Filesystem._get_node(path)`. -/
def getNodeP (t : Node) (p : String) : Except Err Node :=
  getNode t (pathComps p)

/-- Rebuild the tree after the node resolved at `comps` was mutated in
place: apply `f` at that position, leaving every untouched node as is. -/
def updateAt : Node → List String → (Node → Node) → Node
  | t, [], f => f t
  | t, name :: rest, f =>
    if name = "" then updateAt t rest f
    else
      match t with
      | .dir a fd ch => .dir a fd (mapEntry ch name (fun c => updateAt c rest f))
      | other => other

/-- The mutation `Directory.rename` performs on the old parent object:
`remove_child(old_name)` followed (at the end of `rename`) by
`self.set_mtime()`. -/
def rmChild (t0 : Nat) (nm : String) (p : Node) : Node :=
  setMtimeD t0 (match p with
    | .dir a fd ch => .dir a fd (aremove ch nm)
    | q => q)

/-- The mutation `Directory.rename` performs on the new parent object:
`add_child(new_name, node)` followed by `new_parent_node.set_mtime()`. -/
def addChild (t0 : Nat) (nm : String) (c : Node) (p : Node) : Node :=
  setMtimeD t0 (match p with
    | .dir a fd ch => .dir a fd (aset ch nm c)
    | q => q)

/-!  The `Filesystem` facade.  Each entry point resolves path(s) with
`_get_node`, calls the method on the resolved node object, and we rebuild
the tree with `updateAt` at the resolved position to reflect the in-place
mutation.  On a resolution failure the tree is returned untouched. -/

/-- `Filesystem.create(path, mode)`. -/
def Filesystem.createF (t0 uid gid now : Nat) (t : Node) (path : String)
    (mode : Nat) : Except Err Nat × Node :=
  match splitPath path with
  | (pp, name) =>
    match getNodeP t pp with
    | .error e => (.error e, t)
    | .ok p =>
      match Directory.createOp t0 uid gid now mode name p with
      | (r, p2) => (r, updateAt t (pathComps pp) (fun _ => p2))

/-- `Filesystem.mkdir(path, mode)`. -/
def Filesystem.mkdirF (t0 uid gid now : Nat) (t : Node) (path : String)
    (mode : Nat) : Except Err Unit × Node :=
  match splitPath path with
  | (pp, name) =>
    match getNodeP t pp with
    | .error e => (.error e, t)
    | .ok p =>
      match Directory.mkdirOp t0 uid gid now mode name p with
      | (r, p2) => (r, updateAt t (pathComps pp) (fun _ => p2))

/-- `Filesystem.rmdir(path)`. -/
def Filesystem.rmdirF (t0 : Nat) (t : Node) (path : String) :
    Except Err Unit × Node :=
  match splitPath path with
  | (pp, name) =>
    match getNodeP t pp with
    | .error e => (.error e, t)
    | .ok p =>
      match Directory.rmdirOp t0 name p with
      | (r, p2) => (r, updateAt t (pathComps pp) (fun _ => p2))

/-- `Filesystem.unlink(path)`. -/
def Filesystem.unlinkF (t0 : Nat) (t : Node) (path : String) :
    Except Err Unit × Node :=
  match splitPath path with
  | (pp, name) =>
    match getNodeP t pp with
    | .error e => (.error e, t)
    | .ok p =>
      match Directory.unlinkOp t0 name p with
      | (r, p2) => (r, updateAt t (pathComps pp) (fun _ => p2))

/-- `Filesystem.symlink(source, target)`: creates the link at `source`
pointing to the string `target`. -/
def Filesystem.symlinkF (t0 uid gid now : Nat) (t : Node)
    (source target : String) : Except Err Unit × Node :=
  match splitPath source with
  | (pp, name) =>
    match getNodeP t pp with
    | .error e => (.error e, t)
    | .ok p =>
      match Directory.symlinkOp t0 uid gid now name target p with
      | (r, p2) => (r, updateAt t (pathComps pp) (fun _ => p2))

/-- `Filesystem.open(path, flags)`: `File.open` bumps and returns the
per-file handle counter; any other node type has no `open` method. -/
def Filesystem.openF (t : Node) (path : String) (_flags : Nat) :
    Except Err Nat × Node :=
  match getNodeP t path with
  | .error e => (.error e, t)
  | .ok (.file a fd c) =>
    (.ok (fd + 1), updateAt t (pathComps path) (fun _ => .file a (fd + 1) c))
  | .ok _ => (.error .crash, t)

/-- `Filesystem.read(path, size, offset, fh)`. -/
def Filesystem.readF (t0 : Nat) (t : Node) (path : String)
    (size offset : Nat) : Except Err (List Nat) × Node :=
  match getNodeP t path with
  | .error e => (.error e, t)
  | .ok (.file a fd c) =>
    match File.readC t0 size offset a c with
    | ((a2, c2), r) =>
      (.ok r, updateAt t (pathComps path) (fun _ => .file a2 fd c2))
  | .ok _ => (.error .crash, t)

/-- `Filesystem.write(path, buffer, offset, fh)`: delegates to `File.write`
and returns `len(buffer)`. -/
def Filesystem.writeF (t0 : Nat) (t : Node) (path : String)
    (buffer : List Nat) (offset : Nat) : Except Err Nat × Node :=
  match getNodeP t path with
  | .error e => (.error e, t)
  | .ok (.file a fd c) =>
    match File.writeC t0 buffer offset a c with
    | (a2, c2) =>
      (.ok buffer.length, updateAt t (pathComps path) (fun _ => .file a2 fd c2))
  | .ok _ => (.error .crash, t)

/-- `Filesystem.truncate(path, length, fh)`. -/
def Filesystem.truncateF (t0 : Nat) (t : Node) (path : String)
    (length : Nat) : Except Err Unit × Node :=
  match getNodeP t path with
  | .error e => (.error e, t)
  | .ok (.file a fd c) =>
    match File.truncateC t0 length a c with
    | (a2, c2) =>
      (.ok (), updateAt t (pathComps path) (fun _ => .file a2 fd c2))
  | .ok _ => (.error .crash, t)

/-- `Filesystem.getxattr(path, name, position)`. -/
def Filesystem.getxattrF (t : Node) (path name : String) :
    Except Err AVal × Node :=
  match getNodeP t path with
  | .error e => (.error e, t)
  | .ok n => (Node.getxattrOp name (attrOf n), t)

/-- `Filesystem.removexattr(path, name)`. -/
def Filesystem.removexattrF (t : Node) (path name : String) :
    Except Err Unit × Node :=
  match getNodeP t path with
  | .error e => (.error e, t)
  | .ok n =>
    match look (attrOf n) name with
    | some _ =>
      (.ok (), updateAt t (pathComps path) (mapAttr (fun a => aremove a name)))
    | none => (.error .enoattr, t)

/-- `Filesystem.setxattr(path, name, value, options, position)`. -/
def Filesystem.setxattrF (t : Node) (path name : String) (value : AVal) :
    Except Err Unit × Node :=
  match getNodeP t path with
  | .error e => (.error e, t)
  | .ok _ =>
    (.ok (), updateAt t (pathComps path) (mapAttr (fun a => aset a name value)))

/-- `Filesystem.listxattr(path)`: returns `node.attr.keys()`. -/
def Filesystem.listxattrF (t : Node) (path : String) :
    Except Err (List String) × Node :=
  match getNodeP t path with
  | .error e => (.error e, t)
  | .ok n => (.ok (akeys (attrOf n)), t)

/-- `Filesystem.utimes(path, times)`: resolves the node and then calls
`node.utime(times)` — a method that exists on no node class, so after a
successful resolution the call always dies with an AttributeError and the
timestamps are never touched. -/
def Filesystem.utimesF (t : Node) (path : String)
    (_times : Option (Int × Int)) : Except Err Unit × Node :=
  match getNodeP t path with
  | .error e => (.error e, t)
  | .ok _ => (.error .crash, t)

/-- `Filesystem.rename(old, new)`: split both paths, resolve both parent
nodes, then `old_parent.rename(old_name, new_name, new_parent)`, whose body
is `node = remove_child(old_name)` (ENOENT if absent),
`new_parent.add_child(new_name, node)` (an AttributeError if the resolved
new parent is not a Directory — by then the child has already been removed),
`self.set_mtime()`, `new_parent.set_mtime()`, `node.set_ctime()`. -/
def Filesystem.renameF (t0 : Nat) (t : Node) (old new : String) :
    Except Err Unit × Node :=
  match splitPath old, splitPath new with
  | (opp, oname), (npp, nname) =>
    match getNodeP t opp with
    | .error e => (.error e, t)
    | .ok opN =>
      match getNodeP t npp with
      | .error e => (.error e, t)
      | .ok npN =>
        match opN with
        | .dir _ _ och =>
          match look och oname with
          | none => (.error .enoent, t)
          | some x =>
            match npN with
            | .dir _ _ _ =>
              (.ok (), updateAt (updateAt t (pathComps opp) (rmChild t0 oname))
                (pathComps npp) (addChild t0 nname (setCtimeD t0 x)))
            | _ =>
              (.error .crash, updateAt t (pathComps opp)
                (fun p => match p with
                  | .dir a fd ch => .dir a fd (aremove ch oname)
                  | q => q))
        | _ => (.error .crash, t)

/-- Convenience observer for stating theorems: the value of attr key `k`
on the node resolved at `p`, or `none` when resolution fails. -/
def getAttrAt (t : Node) (p k : String) : Option AVal :=
  match getNodeP t p with
  | .ok n => look (attrOf n) k
  | .error _ => none

/-- Convenience observer: the byte content of the File resolved at `p`. -/
def getContentAt (t : Node) (p : String) : Option (List Nat) :=
  match getNodeP t p with
  | .ok (.file _ _ c) => some c
  | _ => none

/-- Observer: the error (if any) produced by resolving `p` in `t`. -/
def resolveErr (t : Node) (p : String) : Option Err :=
  match getNodeP t p with
  | .error e => some e
  | .ok _ => none

instance {ε α : Type} [DecidableEq ε] [DecidableEq α] :
    DecidableEq (Except ε α) := fun x y =>
  match x, y with
  | .ok a, .ok b =>
    if h : a = b then .isTrue (by rw [h])
    else .isFalse (fun hh => by cases hh; exact h rfl)
  | .error a, .error b =>
    if h : a = b then .isTrue (by rw [h])
    else .isFalse (fun hh => by cases hh; exact h rfl)
  | .ok _, .error _ => .isFalse (fun hh => by cases hh)
  | .error _, .ok _ => .isFalse (fun hh => by cases hh)

/-- `leadsIntoB p q` decides whether the component list `p` is an initial
segment of `q` (so the position `q` lies inside the subtree rooted at `p`). -/
def leadsIntoB : List String → List String → Bool
  | [], _ => true
  | _ :: _, [] => false
  | a :: p, b :: q => a == b && leadsIntoB p q

/-!  Concrete states used by counterexamples and witnesses: a root directory
(created at time 1) holding a directory `a` (created at time 1) that holds a
two-byte file `x` (created at time 5), and an empty directory `b`. -/

/-- A concrete file, created at time 5, with content `[7, 8]`. -/
def wFile : Node := File.initN 0 0 5 [7, 8]

/-- A concrete directory holding `wFile` under the name `x`. -/
def wDirA : Node := .dir (attrOf (Directory.initN 0 0 1)) 0 [("x", wFile)]

/-- A concrete empty directory. -/
def wDirB : Node := Directory.initN 0 0 1

/-- A concrete root directory holding `wDirA` as `a` and `wDirB` as `b`. -/
def wRoot : Node := .dir (attrOf (Directory.initN 0 0 1)) 0
  [("a", wDirA), ("b", wDirB)]

/-!  Lemmas about the dict operations. -/

theorem look_aset_self {α : Type} (l : List (String × α)) (k : String) (v : α) :
    look (aset l k v) k = some v := by
  induction l with
  | nil => simp [aset, look]
  | cons hd tl ih =>
    rcases hd with ⟨k1, v1⟩
    by_cases hk : k1 = k <;> simp [aset, look, hk, ih]

theorem look_aset_other {α : Type} (l : List (String × α)) (k k' : String)
    (v : α) (h : k ≠ k') : look (aset l k v) k' = look l k' := by
  induction l with
  | nil => simp [aset, look, h]
  | cons hd tl ih =>
    rcases hd with ⟨k1, v1⟩
    by_cases hk : k1 = k
    · subst hk; simp [aset, look, h, ih]
    · simp [aset, look, hk, ih]

theorem look_eq_none_of_not_mem {α : Type} (l : List (String × α)) (k : String)
    (h : k ∉ akeys l) : look l k = none := by
  induction l with
  | nil => simp [look]
  | cons hd tl ih =>
    rcases hd with ⟨k1, v1⟩
    simp only [akeys, List.map_cons, List.mem_cons, not_or] at h
    have hk : k1 ≠ k := fun hh => h.1 hh.symm
    simpa [look, hk] using ih h.2

theorem look_aremove_self {α : Type} (l : List (String × α)) (k : String)
    (hnd : (akeys l).Nodup) : look (aremove l k) k = none := by
  induction l with
  | nil => simp [aremove, look]
  | cons hd tl ih =>
    rcases hd with ⟨k1, v1⟩
    simp only [akeys, List.map_cons, List.nodup_cons] at hnd
    by_cases hk : k1 = k
    · subst hk
      simpa [aremove] using look_eq_none_of_not_mem tl k1 hnd.1
    · simp [aremove, look, hk, ih hnd.2]

theorem look_aremove_other {α : Type} (l : List (String × α)) (k k' : String)
    (h : k ≠ k') : look (aremove l k) k' = look l k' := by
  induction l with
  | nil => simp [aremove, look]
  | cons hd tl ih =>
    rcases hd with ⟨k1, v1⟩
    by_cases hk : k1 = k
    · subst hk; simp [aremove, look, h]
    · simp [aremove, look, hk, ih]

theorem look_mapEntry_self {α : Type} (l : List (String × α)) (k : String)
    (f : α → α) : look (mapEntry l k f) k = (look l k).map f := by
  induction l with
  | nil => simp [mapEntry, look]
  | cons hd tl ih =>
    rcases hd with ⟨k1, v1⟩
    by_cases hk : k1 = k <;> simp [mapEntry, look, hk, ih]

theorem look_mapEntry_other {α : Type} (l : List (String × α)) (k k' : String)
    (f : α → α) (h : k ≠ k') :
    look (mapEntry l k f) k' = look l k' := by
  induction l with
  | nil => simp [mapEntry, look]
  | cons hd tl ih =>
    rcases hd with ⟨k1, v1⟩
    by_cases hk : k1 = k
    · subst hk; simp [mapEntry, look, h]
    · simp [mapEntry, look, hk, ih]

theorem mapEntry_congr_id {α : Type} (l : List (String × α)) (k : String)
    (f : α → α) (hf : ∀ v, look l k = some v → f v = v) :
    mapEntry l k f = l := by
  induction l with
  | nil => simp [mapEntry]
  | cons hd tl ih =>
    rcases hd with ⟨k1, v1⟩
    by_cases hk : k1 = k
    · subst hk
      have := hf v1 (by simp [look])
      simp [mapEntry, this]
    · simp only [mapEntry, if_neg hk, List.cons.injEq, true_and]
      exact ih (fun v hv => hf v (by simp [look, hk, hv]))

/-!  Lemmas about path resolution and tree rebuilding. -/

theorem getNode_skips_empty (t : Node) (p : List String) :
    getNode t p = getNode t (p.filter (fun s => s != "")) := by
  induction p generalizing t with
  | nil => rfl
  | cons a rest ih =>
    by_cases ha : a = ""
    · subst ha
      simpa [getNode] using ih t
    · have hb : (a != "") = true := bne_iff_ne.mpr ha
      rw [List.filter_cons, if_pos hb]
      cases t with
      | dir a1 fd ch =>
        simp only [getNode, if_neg ha]
        cases hl : look ch a with
        | some c => exact ih c
        | none => rfl
      | file a1 fd c => simp [getNode, ha]
      | symlink a1 tg => simp [getNode, ha]

theorem updateAt_skips_empty (t : Node) (p : List String) (f : Node → Node) :
    updateAt t p f = updateAt t (p.filter (fun s => s != "")) f := by
  induction p generalizing t with
  | nil => rfl
  | cons a rest ih =>
    by_cases ha : a = ""
    · subst ha
      simpa [updateAt] using ih t
    · have hb : (a != "") = true := bne_iff_ne.mpr ha
      rw [List.filter_cons, if_pos hb]
      cases t with
      | dir a1 fd ch =>
        have hfe : (fun c => updateAt c rest f) =
            (fun c => updateAt c (rest.filter (fun s => s != "")) f) :=
          funext fun c => ih c
        simp only [updateAt, if_neg ha]
        exact congrArg (fun z => Node.dir a1 fd (mapEntry ch a z)) hfe
      | file a1 fd c => simp [updateAt, ha]
      | symlink a1 tg => simp [updateAt, ha]

theorem getNode_append_ok (t n : Node) (p q : List String)
    (h : getNode t p = .ok n) : getNode t (p ++ q) = getNode n q := by
  induction p generalizing t with
  | nil =>
    simp only [getNode] at h
    cases h; rfl
  | cons a rest ih =>
    by_cases ha : a = ""
    · subst ha
      simp only [getNode, if_pos rfl, List.cons_append] at h ⊢
      exact ih t h
    · cases t with
      | dir a1 fd ch =>
        cases hl : look ch a with
        | some c =>
          simp only [getNode, if_neg ha, List.cons_append, hl] at h ⊢
          exact ih c h
        | none =>
          simp only [getNode, if_neg ha, hl] at h
          exact Except.noConfusion h
      | file a1 fd c => simp [getNode, ha] at h
      | symlink a1 tg => simp [getNode, ha] at h

theorem getNode_append_err (t : Node) (e : Err) (p q : List String)
    (h : getNode t p = .error e) : getNode t (p ++ q) = .error e := by
  induction p generalizing t with
  | nil => simp [getNode] at h
  | cons a rest ih =>
    by_cases ha : a = ""
    · subst ha
      simp only [getNode, if_pos rfl, List.cons_append] at h ⊢
      exact ih t h
    · cases t with
      | dir a1 fd ch =>
        cases hl : look ch a with
        | some c =>
          simp only [getNode, if_neg ha, List.cons_append, hl] at h ⊢
          exact ih c h
        | none =>
          simp only [getNode, if_neg ha, List.cons_append, hl] at h ⊢
          exact h
      | file a1 fd c => simpa [getNode, ha] using h
      | symlink a1 tg => simpa [getNode, ha] using h

theorem updateAt_append (t : Node) (p q : List String) (f : Node → Node) :
    updateAt t (p ++ q) f = updateAt t p (fun n => updateAt n q f) := by
  induction p generalizing t with
  | nil => rfl
  | cons a rest ih =>
    by_cases ha : a = ""
    · subst ha
      simp only [updateAt, if_pos rfl, List.cons_append]
      exact ih t
    · cases t with
      | dir a1 fd ch =>
        have hfe : (fun c => updateAt c (rest ++ q) f) =
            (fun c => updateAt c rest (fun n => updateAt n q f)) :=
          funext fun c => ih c
        simp only [updateAt, if_neg ha, List.cons_append]
        exact congrArg (fun z => Node.dir a1 fd (mapEntry ch a z)) hfe
      | file a1 fd c => simp [updateAt, ha]
      | symlink a1 tg => simp [updateAt, ha]

theorem getNode_updateAt_self (t n : Node) (p : List String) (f : Node → Node)
    (h : getNode t p = .ok n) : getNode (updateAt t p f) p = .ok (f n) := by
  induction p generalizing t with
  | nil =>
    simp only [getNode] at h
    cases h; rfl
  | cons a rest ih =>
    by_cases ha : a = ""
    · subst ha
      simp only [getNode, updateAt, if_pos rfl] at h ⊢
      exact ih t h
    · cases t with
      | dir a1 fd ch =>
        cases hl : look ch a with
        | some c =>
          simp only [getNode, updateAt, if_neg ha, hl] at h ⊢
          rw [look_mapEntry_self, hl]
          exact ih c h
        | none =>
          simp only [getNode, if_neg ha, hl] at h
          exact Except.noConfusion h
      | file a1 fd c => simp [getNode, ha] at h
      | symlink a1 tg => simp [getNode, ha] at h

theorem updateAt_congr_id (t n : Node) (p : List String) (f : Node → Node)
    (h : getNode t p = .ok n) (hf : f n = n) : updateAt t p f = t := by
  induction p generalizing t with
  | nil =>
    simp only [getNode] at h
    cases h
    exact hf
  | cons a rest ih =>
    by_cases ha : a = ""
    · subst ha
      simp only [getNode, if_pos rfl] at h
      simp only [updateAt, if_pos rfl]
      exact ih t h
    · cases t with
      | dir a1 fd ch =>
        cases hl : look ch a with
        | some c =>
          simp only [getNode, if_neg ha, hl] at h
          simp only [updateAt, if_neg ha]
          have hme : mapEntry ch a (fun c2 => updateAt c2 rest f) = ch := by
            apply mapEntry_congr_id
            intro v hv
            rw [hl] at hv
            cases hv
            exact ih c h
          rw [hme]
        | none =>
          simp only [getNode, if_neg ha, hl] at h
          exact Except.noConfusion h
      | file a1 fd c => simp [getNode, ha] at h
      | symlink a1 tg => simp [getNode, ha] at h

theorem getNode_updateAt_div (t : Node) (s p q : List String) (a b : String)
    (f : Node → Node) (hab : a ≠ b) (ha : a ≠ "") (hb : b ≠ "") :
    getNode (updateAt t (s ++ a :: p) f) (s ++ b :: q) =
      getNode t (s ++ b :: q) := by
  induction s generalizing t with
  | nil =>
    cases t with
    | dir a1 fd ch =>
      simp only [List.nil_append, updateAt, getNode, if_neg ha, if_neg hb]
      rw [look_mapEntry_other ch a b _ hab]
    | file a1 fd c => simp [updateAt, ha]
    | symlink a1 tg => simp [updateAt, ha]
  | cons x s2 ih =>
    by_cases hx : x = ""
    · subst hx
      simp only [List.cons_append, updateAt, getNode, if_pos rfl]
      exact ih t
    · cases t with
      | dir a1 fd ch =>
        simp only [List.cons_append, updateAt, getNode, if_neg hx]
        rw [look_mapEntry_self]
        cases hl : look ch x with
        | some c => exact ih c
        | none => rfl
      | file a1 fd c => simp [updateAt, hx]
      | symlink a1 tg => simp [updateAt, hx]

theorem getNode_cons_dir (a1 : Attr) (fd : Nat) (ch : List (String × Node))
    (name : String) (rest : List String) (m : Node) (hn : name ≠ "")
    (h : getNode (.dir a1 fd ch) (name :: rest) = .ok m) :
    ∃ c, look ch name = some c ∧ getNode c rest = .ok m := by
  cases hl : look ch name with
  | some c =>
    simp only [getNode, if_neg hn, hl] at h
    exact ⟨c, rfl, h⟩
  | none =>
    simp only [getNode, if_neg hn, hl] at h
    exact Except.noConfusion h

theorem leadsIntoB_ex (p q : List String) (h : leadsIntoB p q = true) :
    ∃ r, q = p ++ r := by
  induction p generalizing q with
  | nil => exact ⟨q, rfl⟩
  | cons a p2 ih =>
    cases q with
    | nil => simp [leadsIntoB] at h
    | cons b q2 =>
      simp only [leadsIntoB, Bool.and_eq_true, beq_iff_eq] at h
      obtain ⟨r, hr⟩ := ih q2 h.2
      exact ⟨r, by rw [h.1, hr]; rfl⟩

theorem leadsIntoB_append_same (s p q : List String) :
    leadsIntoB (s ++ p) (s ++ q) = leadsIntoB p q := by
  induction s with
  | nil => rfl
  | cons x s2 ih => simp [leadsIntoB, ih]

theorem listRelCases (p q : List String) :
    leadsIntoB p q = true ∨ leadsIntoB q p = true ∨
    ∃ s a b p2 q2, p = s ++ a :: p2 ∧ q = s ++ b :: q2 ∧ a ≠ b := by
  induction p generalizing q with
  | nil => exact Or.inl rfl
  | cons a p2 ih =>
    cases q with
    | nil => exact Or.inr (Or.inl rfl)
    | cons b q2 =>
      by_cases hab : a = b
      · subst hab
        rcases ih q2 with h | h | ⟨s, x, y, p3, q3, h1, h2, h3⟩
        · left; simp [leadsIntoB, h]
        · right; left; simp [leadsIntoB, h]
        · right; right
          exact ⟨a :: s, x, y, p3, q3, by rw [h1]; rfl, by rw [h2]; rfl, h3⟩
      · right; right; exact ⟨[], a, b, p2, q2, rfl, rfl, hab⟩

theorem getNode_snoc_ok (t : Node) (p : List String) (a1 : Attr) (fd : Nat)
    (ch : List (String × Node)) (nm : String) (v : Node)
    (h : getNode t p = .ok (.dir a1 fd ch)) (hnm : nm ≠ "")
    (hv : look ch nm = some v) : getNode t (p ++ [nm]) = .ok v := by
  rw [getNode_append_ok t _ p [nm] h]
  simp [getNode, hnm, hv]

theorem getNode_snoc_enoent (t : Node) (p : List String) (a1 : Attr) (fd : Nat)
    (ch : List (String × Node)) (nm : String)
    (h : getNode t p = .ok (.dir a1 fd ch)) (hnm : nm ≠ "")
    (hv : look ch nm = none) : getNode t (p ++ [nm]) = .error .enoent := by
  rw [getNode_append_ok t _ p [nm] h]
  simp [getNode, hnm, hv]

theorem getNode_enoent_ex (t : Node) (comps : List String)
    (h : getNode t comps = .error .enoent) :
    ∃ pre nm rest, comps = pre ++ nm :: rest ∧ nm ≠ "" ∧
      ∃ a1 fd ch, getNode t pre = .ok (.dir a1 fd ch) ∧ look ch nm = none := by
  induction comps generalizing t with
  | nil => simp [getNode] at h
  | cons a rest ih =>
    by_cases ha : a = ""
    · subst ha
      simp only [getNode, if_pos rfl] at h
      obtain ⟨pre, nm, r2, h1, h2, a1, fd, ch, h3, h4⟩ := ih t h
      refine ⟨"" :: pre, nm, r2, by rw [h1]; rfl, h2, a1, fd, ch, ?_, h4⟩
      simpa [getNode] using h3
    · cases t with
      | dir a1 fd ch =>
        cases hl : look ch a with
        | some c =>
          simp only [getNode, if_neg ha, hl] at h
          obtain ⟨pre, nm, r2, h1, h2, a2, fd2, ch2, h3, h4⟩ := ih c h
          refine ⟨a :: pre, nm, r2, by rw [h1]; rfl, h2, a2, fd2, ch2, ?_, h4⟩
          simpa [getNode, ha, hl] using h3
        | none => exact ⟨[], a, rest, rfl, ha, a1, fd, ch, rfl, hl⟩
      | file a1 fd c => simp [getNode, ha] at h
      | symlink a1 tg => simp [getNode, ha] at h

theorem getNode_eperm_ex (t : Node) (comps : List String)
    (h : getNode t comps = .error .eperm) :
    ∃ pre nm rest n, comps = pre ++ nm :: rest ∧ nm ≠ "" ∧
      getNode t pre = .ok n ∧ isDirN n = false := by
  induction comps generalizing t with
  | nil => simp [getNode] at h
  | cons a rest ih =>
    by_cases ha : a = ""
    · subst ha
      simp only [getNode, if_pos rfl] at h
      obtain ⟨pre, nm, r2, n, h1, h2, h3, h4⟩ := ih t h
      refine ⟨"" :: pre, nm, r2, n, by rw [h1]; rfl, h2, ?_, h4⟩
      simpa [getNode] using h3
    · cases t with
      | dir a1 fd ch =>
        cases hl : look ch a with
        | some c =>
          simp only [getNode, if_neg ha, hl] at h
          obtain ⟨pre, nm, r2, n, h1, h2, h3, h4⟩ := ih c h
          refine ⟨a :: pre, nm, r2, n, by rw [h1]; rfl, h2, ?_, h4⟩
          simpa [getNode, ha, hl] using h3
        | none =>
          simp only [getNode, if_neg ha, hl] at h
          exact absurd (Except.error.inj h) (by decide)
      | file a1 fd c =>
        exact ⟨[], a, rest, .file a1 fd c, rfl, ha, rfl, rfl⟩
      | symlink a1 tg =>
        exact ⟨[], a, rest, .symlink a1 tg, rfl, ha, rfl, rfl⟩

theorem getNode_enoent_intro (t : Node) (pre : List String) (nm : String)
    (rest : List String) (a1 : Attr) (fd : Nat) (ch : List (String × Node))
    (hnm : nm ≠ "") (h3 : getNode t pre = .ok (.dir a1 fd ch))
    (h4 : look ch nm = none) :
    getNode t (pre ++ nm :: rest) = .error .enoent := by
  rw [getNode_append_ok t _ pre (nm :: rest) h3]
  simp [getNode, hnm, h4]

theorem getNode_eperm_intro (t : Node) (pre : List String) (nm : String)
    (rest : List String) (n : Node) (hnm : nm ≠ "")
    (h3 : getNode t pre = .ok n) (h4 : isDirN n = false) :
    getNode t (pre ++ nm :: rest) = .error .eperm := by
  rw [getNode_append_ok t n pre (nm :: rest) h3]
  cases n with
  | dir a1 fd ch => exact absurd h4 (by simp [isDirN])
  | file a1 fd c => simp [getNode, hnm]
  | symlink a1 tg => simp [getNode, hnm]

/-!  Claim theorems. -/

/-- C1: the claimed invariant "`st_size` always equals the content length,
in particular after `truncate`" fails on the code: `File.truncate` replaces
the content by `content[0:length]` but never updates `st_size`.  On the file
`wFile` (content `[7, 8]`, `st_size = 2`), `truncate(1)` leaves a one-byte
content while `st_size` still reads 2 (`set_content` and `write` do keep the
field in sync; `truncate` is the slip). -/
theorem C1_truncate_leaves_size_stale :
    look (attrOf wFile) "st_size" = some (.int 2) ∧
    (File.truncateC 0 1 (attrOf wFile) [7, 8]).2 = [7] ∧
    look (File.truncateC 0 1 (attrOf wFile) [7, 8]).1 "st_size" =
      some (.int 2) := by decide

/-- C2: `Directory.mkdir(name, mode)` assigns `mode | S_IFDIR` to the
**parent's** `st_mode` (the source writes `self.attr['st_mode']`), and the
new child keeps the `Directory()` default mode `0o755 | S_IFDIR`.  On the
empty directory `wDirB` (mode `0o755 | S_IFDIR = 16877`), `mkdir("d", 0o700)`
changes the parent's mode to `0o700 | S_IFDIR = 16832` and gives the child
16877 instead of 16832; the link count part of the claim does hold
(`st_nlink` goes from 1 to 2). -/
theorem C2_mkdir_sets_parent_mode :
    (Directory.mkdirOp 0 0 0 9 448 "d" wDirB).1 = .ok () ∧
    getAttrAt wDirB "" "st_mode" = some (.int 16877) ∧
    getAttrAt (Directory.mkdirOp 0 0 0 9 448 "d" wDirB).2 "" "st_mode" =
      some (.int 16832) ∧
    getAttrAt (Directory.mkdirOp 0 0 0 9 448 "d" wDirB).2 "/d" "st_mode" =
      some (.int 16877) ∧
    getAttrAt wDirB "" "st_nlink" = some (.int 1) ∧
    getAttrAt (Directory.mkdirOp 0 0 0 9 448 "d" wDirB).2 "" "st_nlink" =
      some (.int 2) := by decide

/-- C3: write/read round trip.  For any file attr `a`, content `c`, buffer
`b` and offset `o ≤ len c`, `write(b, o)` followed by `read(len b, o)`
returns exactly `b`. -/
theorem C3_write_read_round_trip (t0 : Nat) (a : Attr) (c b : List Nat)
    (o : Nat) (h : o ≤ c.length) :
    (File.readC t0 b.length o (File.writeC t0 b o a c).1
      (File.writeC t0 b o a c).2).2 = b := by
  show ((c.take o ++ b).drop o).take b.length = b
  have hlen : (c.take o).length = o := by
    rw [List.length_take]; exact Nat.min_eq_left h
  calc ((c.take o ++ b).drop o).take b.length
      = ((c.take o ++ b).drop (c.take o).length).take b.length := by rw [hlen]
    _ = b.take b.length := by rw [List.drop_left]
    _ = b := List.take_length b

/-- C3 witness: at `c = [7, 8]`, `b = [9, 9]`, `o = 2` the hypothesis
`o ≤ len c` holds and the round trip returns `b`. -/
theorem C3_witness :
    (File.readC 0 [9, 9].length 2 (File.writeC 0 [9, 9] 2 [] [7, 8]).1
      (File.writeC 0 [9, 9] 2 [] [7, 8]).2).2 = [9, 9] :=
  C3_write_read_round_trip 0 [] [7, 8] [9, 9] 2 (by decide)

/-- C4: when `path` resolves to a File with content `c`, the facade's
`write(buffer, offset)` returns `len(buffer)`, the content becomes exactly
`c[0:offset] + buffer`, and when `offset ≥ len c` no gap is zero-filled:
the content is just `c + buffer`. -/
theorem C4_write_replaces_tail (t0 : Nat) (t : Node) (p : String) (a : Attr)
    (fd : Nat) (c b : List Nat) (o : Nat)
    (h : getNodeP t p = .ok (.file a fd c)) :
    (Filesystem.writeF t0 t p b o).1 = .ok b.length ∧
    getContentAt (Filesystem.writeF t0 t p b o).2 p = some (c.take o ++ b) ∧
    (c.length ≤ o → c.take o ++ b = c ++ b) := by
  refine ⟨?_, ?_, fun hlen => by rw [List.take_of_length_le hlen]⟩
  · simp only [Filesystem.writeF, h]
  · have h2 : (Filesystem.writeF t0 t p b o).2 =
        updateAt t (pathComps p)
          (fun _ => .file (File.writeC t0 b o a c).1 fd
            (File.writeC t0 b o a c).2) := by
      simp only [Filesystem.writeF, h]
    rw [h2]
    unfold getContentAt getNodeP
    rw [getNode_updateAt_self t (.file a fd c) (pathComps p) _ h]
    rfl

/-- C4 witness: writing `[9]` at offset 1 into `/a/x` (content `[7, 8]`)
returns 1 and leaves content `[7, 9]`. -/
theorem C4_witness :
    (Filesystem.writeF 0 wRoot "/a/x" [9] 1).1 = .ok [9].length ∧
    getContentAt (Filesystem.writeF 0 wRoot "/a/x" [9] 1).2 "/a/x" =
      some ([7, 8].take 1 ++ [9]) ∧
    ([7, 8].length ≤ 1 → [7, 8].take 1 ++ [9] = [7, 8] ++ [9]) :=
  C4_write_replaces_tail 0 wRoot "/a/x" (attrOf wFile) 0 [7, 8] [9] 1 rfl

/-- C6: path resolution splits on the separator and ignores empty components
(leading/trailing/repeated separators are harmless); it fails with NotFound
(ENOENT) exactly when, after successfully walking some prefix to a
directory, the next non-empty component is not among its children; and it
fails with PermissionDenied (EPERM) exactly when, after successfully walking
some prefix, the next non-empty component must descend through a
non-Directory node. -/
theorem C6_resolution_characterization (t : Node) :
    (∀ p : String, getNodeP t p =
      getNode t ((pathComps p).filter (fun s => s != ""))) ∧
    (∀ comps : List String, getNode t comps = .error .enoent ↔
      ∃ pre nm rest, comps = pre ++ nm :: rest ∧ nm ≠ "" ∧
        ∃ a1 fd ch, getNode t pre = .ok (.dir a1 fd ch) ∧
          look ch nm = none) ∧
    (∀ comps : List String, getNode t comps = .error .eperm ↔
      ∃ pre nm rest n, comps = pre ++ nm :: rest ∧ nm ≠ "" ∧
        getNode t pre = .ok n ∧ isDirN n = false) := by
  refine ⟨fun p => getNode_skips_empty t (pathComps p),
    fun comps => ⟨getNode_enoent_ex t comps, ?_⟩,
    fun comps => ⟨getNode_eperm_ex t comps, ?_⟩⟩
  · rintro ⟨pre, nm, rest, rfl, h2, a1, fd, ch, h3, h4⟩
    exact getNode_enoent_intro t pre nm rest a1 fd ch h2 h3 h4
  · rintro ⟨pre, nm, rest, n, rfl, h2, h3, h4⟩
    exact getNode_eperm_intro t pre nm rest n h2 h3 h4

/-- C7: the claim says `utimes` on an existing path succeeds and sets the
timestamps; the code's `Filesystem.utimes` instead calls `node.utime(times)`
— a method that no node class defines (`Node` has `utimes`) — so after a
successful resolution the call always raises AttributeError and no
timestamp is touched. -/
theorem C7_utimes_always_crashes (t : Node) (p : String)
    (times : Option (Int × Int)) (n : Node) (h : getNodeP t p = .ok n) :
    Filesystem.utimesF t p times = (.error .crash, t) := by
  simp only [Filesystem.utimesF, h]

/-- C7 witness: on the concrete tree `wRoot` the path `/a/x` resolves, and
`utimes` returns the AttributeError crash leaving the tree unchanged. -/
theorem C7_witness :
    Filesystem.utimesF wRoot "/a/x" (some (3, 4)) = (.error .crash, wRoot) :=
  C7_utimes_always_crashes wRoot "/a/x" (some (3, 4)) wFile rfl

/-- C8: implicit timestamp updates are not monotone.  `set_mtime`'s default
argument `mtime=time()` was evaluated once at module load (`t0`, here 0), so
a file created later (at time 5, `st_mtime = 5`) gets `st_mtime = 0 < 5`
from the very next `write` — the timestamp moves backward with no explicit
time-setting call involved. -/
theorem C8_implicit_timestamps_go_backward :
    look (attrOf wFile) "st_mtime" = some (.int 5) ∧
    look (File.writeC 0 [9] 0 (attrOf wFile) [7, 8]).1 "st_mtime" =
      some (.int 0) := by decide

/-- C9: stat metadata and extended attributes live in the one per-node
`attr` dict: `getxattr` fails with ENOATTR exactly when the key is absent
from that dict, `getxattr("st_mode")` on a fresh file returns the stat
value, `listxattr` (which returns `attr.keys()`) lists exactly the eight
stat keys on a fresh node, and `removexattr` can delete a stat field, after
which `getxattr` on it fails. -/
theorem C9_xattr_shares_attr_dict (uid gid now : Nat) (c : List Nat) :
    (∀ (a : Attr) (k : String),
      Node.getxattrOp k a = .error .enoattr ↔ look a k = none) ∧
    Node.getxattrOp "st_mode" (attrOf (File.initN uid gid now c)) =
      .ok (.int ((0o755 ||| S_IFREG : Nat) : Int)) ∧
    akeys (attrOf (File.initN uid gid now c)) =
      ["st_mode", "st_uid", "st_gid", "st_nlink", "st_size",
       "st_ctime", "st_mtime", "st_atime"] ∧
    (∃ a2, Node.removexattrOp "st_mode" (attrOf (File.initN uid gid now c)) =
        .ok a2 ∧
      Node.getxattrOp "st_mode" a2 = .error .enoattr) := by
  refine ⟨?_, rfl, rfl, ⟨_, rfl, rfl⟩⟩
  intro a k
  unfold Node.getxattrOp
  cases hl : look a k <;> simp

theorem rename_core (t0 : Nat) (t : Node) (oppC nppC : List String)
    (onm nnm : String) (oa na : Attr) (ofd nfd : Nat)
    (och nch : List (String × Node)) (x : Node)
    (hon : onm ≠ "") (hnn : nnm ≠ "")
    (hclo : "" ∉ oppC) (hcln : "" ∉ nppC)
    (hO : getNode t oppC = .ok (.dir oa ofd och))
    (hN : getNode t nppC = .ok (.dir na nfd nch))
    (hnd : (akeys och).Nodup)
    (h3 : leadsIntoB (oppC ++ [onm]) nppC = false)
    (h4 : leadsIntoB (nppC ++ [nnm]) (oppC ++ [onm]) = false)
    (hne : ¬(oppC = nppC ∧ onm = nnm)) :
    getNode (updateAt (updateAt t oppC (rmChild t0 onm)) nppC
        (addChild t0 nnm (setCtimeD t0 x))) (oppC ++ [onm]) = .error .enoent ∧
    getNode (updateAt (updateAt t oppC (rmChild t0 onm)) nppC
        (addChild t0 nnm (setCtimeD t0 x))) (nppC ++ [nnm]) =
      .ok (setCtimeD t0 x) := by
  have hT1 : getNode (updateAt t oppC (rmChild t0 onm)) oppC =
      .ok (.dir (setMtimeA t0 oa) ofd (aremove och onm)) :=
    getNode_updateAt_self t _ oppC (rmChild t0 onm) hO
  have hA1 : getNode (updateAt t oppC (rmChild t0 onm)) (oppC ++ [onm]) =
      .error .enoent :=
    getNode_snoc_enoent _ oppC _ ofd _ onm hT1 hon (look_aremove_self och onm hnd)
  by_cases heq : oppC = nppC
  · -- the two parents are the same directory object
    subst heq
    rw [hO] at hN
    obtain ⟨rfl, rfl, rfl⟩ := Node.dir.inj (Except.ok.inj hN)
    have honn : onm ≠ nnm := fun hh => hne ⟨rfl, hh⟩
    have hT2 : getNode (updateAt (updateAt t oppC (rmChild t0 onm)) oppC
          (addChild t0 nnm (setCtimeD t0 x))) oppC =
        .ok (.dir (setMtimeA t0 (setMtimeA t0 oa)) ofd
          (aset (aremove och onm) nnm (setCtimeD t0 x))) :=
      getNode_updateAt_self _ _ oppC _ hT1
    constructor
    · refine getNode_snoc_enoent _ oppC _ ofd _ onm hT2 hon ?_
      rw [look_aset_other _ nnm onm _ (fun hh => honn hh.symm)]
      exact look_aremove_self och onm hnd
    · exact getNode_snoc_ok _ oppC _ ofd _ nnm _ hT2 hnn
        (look_aset_self (aremove och onm) nnm (setCtimeD t0 x))
  · rcases listRelCases oppC nppC with hrel | hrel |
      ⟨s, dA, dB, pA, pB, hPA, hPB, hAB⟩
    · -- the new parent lies strictly below the old parent
      obtain ⟨m, rfl⟩ := leadsIntoB_ex _ _ hrel
      cases m with
      | nil => exact absurd (List.append_nil oppC).symm heq
      | cons hM mM =>
        rw [leadsIntoB_append_same] at h3
        have h3x : ¬onm = hM := by
          simpa [leadsIntoB] using h3
        have hHM : hM ≠ "" := by
          intro hh; subst hh
          exact hcln (List.mem_append_right _ (List.mem_cons_self _ _))
        rw [getNode_append_ok t _ oppC (hM :: mM) hO] at hN
        obtain ⟨c, hc, hcm⟩ := getNode_cons_dir oa ofd och hM mM _ hHM hN
        have hN1 : getNode (updateAt t oppC (rmChild t0 onm))
            (oppC ++ hM :: mM) = .ok (.dir na nfd nch) := by
          rw [getNode_append_ok _ _ oppC (hM :: mM) hT1]
          simp only [getNode, if_neg hHM,
            look_aremove_other och onm hM h3x, hc]
          exact hcm
        have hT2 : getNode (updateAt (updateAt t oppC (rmChild t0 onm))
              (oppC ++ hM :: mM) (addChild t0 nnm (setCtimeD t0 x)))
              (oppC ++ hM :: mM) =
            .ok (.dir (setMtimeA t0 na) nfd
              (aset nch nnm (setCtimeD t0 x))) :=
          getNode_updateAt_self _ _ _ _ hN1
        constructor
        · rw [getNode_updateAt_div _ oppC mM [] hM onm _
            (fun hh => h3x hh.symm) hHM hon]
          exact hA1
        · exact getNode_snoc_ok _ _ _ nfd _ nnm _ hT2 hnn
            (look_aset_self nch nnm (setCtimeD t0 x))
    · -- the old parent lies strictly below the new parent
      obtain ⟨m, rfl⟩ := leadsIntoB_ex _ _ hrel
      cases m with
      | nil => exact absurd (List.append_nil nppC) heq
      | cons hM mM =>
        rw [List.append_assoc, List.cons_append, leadsIntoB_append_same] at h4
        have h4x : ¬nnm = hM := by
          simpa [leadsIntoB] using h4
        have hHM : hM ≠ "" := by
          intro hh; subst hh
          exact hclo (List.mem_append_right _ (List.mem_cons_self _ _))
        rw [getNode_append_ok t _ nppC (hM :: mM) hN] at hO
        obtain ⟨c, hc, hcm⟩ := getNode_cons_dir na nfd nch hM mM _ hHM hO
        rw [updateAt_append t nppC (hM :: mM) (rmChild t0 onm)]
        have hG : getNode (updateAt t nppC
              (fun n => updateAt n (hM :: mM) (rmChild t0 onm))) nppC =
            .ok (.dir na nfd (mapEntry nch hM
              (fun c2 => updateAt c2 mM (rmChild t0 onm)))) := by
          have h5 := getNode_updateAt_self t _ nppC
            (fun n => updateAt n (hM :: mM) (rmChild t0 onm)) hN
          rw [show (fun n => updateAt n (hM :: mM) (rmChild t0 onm))
              (Node.dir na nfd nch) =
            Node.dir na nfd (mapEntry nch hM
              (fun c2 => updateAt c2 mM (rmChild t0 onm))) from by
            simp [updateAt, hHM]] at h5
          exact h5
        have hT2 : getNode (updateAt (updateAt t nppC
              (fun n => updateAt n (hM :: mM) (rmChild t0 onm))) nppC
              (addChild t0 nnm (setCtimeD t0 x))) nppC =
            .ok (.dir (setMtimeA t0 na) nfd (aset (mapEntry nch hM
              (fun c2 => updateAt c2 mM (rmChild t0 onm))) nnm
                (setCtimeD t0 x))) :=
          getNode_updateAt_self _ _ nppC _ hG
        constructor
        · rw [List.append_assoc, List.cons_append]
          rw [getNode_append_ok _ _ nppC (hM :: (mM ++ [onm])) hT2]
          simp only [getNode, if_neg hHM,
            look_aset_other _ nnm hM _ h4x, look_mapEntry_self, hc,
            Option.map_some']
          have hSelf : getNode (updateAt c mM (rmChild t0 onm)) mM =
              .ok (.dir (setMtimeA t0 oa) ofd (aremove och onm)) :=
            getNode_updateAt_self c _ mM (rmChild t0 onm) hcm
          have := getNode_snoc_enoent _ mM _ ofd _ onm hSelf hon
            (look_aremove_self och onm hnd)
          exact this
        · exact getNode_snoc_ok _ _ _ nfd _ nnm _ hT2 hnn
            (look_aset_self _ nnm (setCtimeD t0 x))
    · -- the two parents lie in disjoint subtrees
      have hdA : dA ≠ "" := by
        intro hh; subst hh
        rw [hPA] at hclo
        exact hclo (List.mem_append_right _ (List.mem_cons_self _ _))
      have hdB : dB ≠ "" := by
        intro hh; subst hh
        rw [hPB] at hcln
        exact hcln (List.mem_append_right _ (List.mem_cons_self _ _))
      have hN1 : getNode (updateAt t oppC (rmChild t0 onm)) nppC =
          .ok (.dir na nfd nch) := by
        rw [hPA, hPB, getNode_updateAt_div t s pA pB dA dB _ hAB hdA hdB,
          ← hPB]
        exact hN
      have hT2 : getNode (updateAt (updateAt t oppC (rmChild t0 onm)) nppC
            (addChild t0 nnm (setCtimeD t0 x))) nppC =
          .ok (.dir (setMtimeA t0 na) nfd
            (aset nch nnm (setCtimeD t0 x))) :=
        getNode_updateAt_self _ _ nppC _ hN1
      constructor
      · have hq : oppC ++ [onm] = s ++ dA :: (pA ++ [onm]) := by
          rw [hPA, List.append_assoc, List.cons_append]
        rw [hq, hPB, getNode_updateAt_div _ s pB (pA ++ [onm]) dB dA _
          (fun hh => hAB hh.symm) hdB hdA, ← hq]
        exact hA1
      · exact getNode_snoc_ok _ nppC _ nfd _ nnm _ hT2 hnn
          (look_aset_self nch nnm (setCtimeD t0 x))

/-- C5 counterexample: rename does not preserve all of the moved node's
attributes.  In `wRoot`, the file `/a/x` has `st_ctime = 5` before
`rename("/a/x", "/b/y")`; after the rename the node found at `/b/y` still
has the old content `[7, 8]` but carries `st_ctime = 0` — the module-load
default written by `node.set_ctime()` inside `Directory.rename` — so
"resolving the new path yields the very same node with its pre-rename
content and attributes" is false at this input. -/
theorem C5_counterexample :
    getAttrAt wRoot "/a/x" "st_ctime" = some (.int 5) ∧
    (Filesystem.renameF 0 wRoot "/a/x" "/b/y").1 = .ok () ∧
    getContentAt (Filesystem.renameF 0 wRoot "/a/x" "/b/y").2 "/b/y" =
      some [7, 8] ∧
    getAttrAt (Filesystem.renameF 0 wRoot "/a/x" "/b/y").2 "/b/y"
      "st_ctime" = some (.int 0) := by decide

/-- C5 (amended): after `rename(old, new)`, the old path resolves to
NotFound and the new path resolves to the moved node itself — same content,
same fd counter, and all attributes except `st_ctime`, which
`Directory.rename` overwrites via `node.set_ctime()` (any entry already at
the destination is silently replaced, since `add_child` overwrites).  The
hypotheses pin the honest setting: both parent paths resolve to
directories, the old name is present, the destination parent does not lie
inside the moved subtree, the old parent does not lie at or below the
destination entry, and the two (parent, leaf) positions are not identical. -/
theorem C5_rename_moves_node (t0 : Nat) (t : Node) (old new : String)
    (oppS nppS onm nnm : String) (oppC nppC : List String)
    (oa na : Attr) (ofd nfd : Nat) (och nch : List (String × Node)) (x : Node)
    (hso : splitPath old = (oppS, onm)) (hsn : splitPath new = (nppS, nnm))
    (hcoP : (pathComps oppS).filter (fun s => s != "") = oppC)
    (hcnP : (pathComps nppS).filter (fun s => s != "") = nppC)
    (hfold : (pathComps old).filter (fun s => s != "") = oppC ++ [onm])
    (hfnew : (pathComps new).filter (fun s => s != "") = nppC ++ [nnm])
    (hon : onm ≠ "") (hnn : nnm ≠ "") (hclo : "" ∉ oppC) (hcln : "" ∉ nppC)
    (hO : getNode t oppC = .ok (.dir oa ofd och))
    (hx : look och onm = some x)
    (hN : getNode t nppC = .ok (.dir na nfd nch))
    (hnd : (akeys och).Nodup)
    (h3 : leadsIntoB (oppC ++ [onm]) nppC = false)
    (h4 : leadsIntoB (nppC ++ [nnm]) (oppC ++ [onm]) = false)
    (hne : ¬(oppC = nppC ∧ onm = nnm)) :
    (Filesystem.renameF t0 t old new).1 = .ok () ∧
    getNodeP (Filesystem.renameF t0 t old new).2 old = .error .enoent ∧
    getNodeP (Filesystem.renameF t0 t old new).2 new =
      .ok (setCtimeD t0 x) := by
  have hgo : getNodeP t oppS = .ok (.dir oa ofd och) := by
    show getNode t (pathComps oppS) = _
    rw [getNode_skips_empty, hcoP]; exact hO
  have hgn : getNodeP t nppS = .ok (.dir na nfd nch) := by
    show getNode t (pathComps nppS) = _
    rw [getNode_skips_empty, hcnP]; exact hN
  have hfa : Filesystem.renameF t0 t old new =
      (.ok (), updateAt (updateAt t (pathComps oppS) (rmChild t0 onm))
        (pathComps nppS) (addChild t0 nnm (setCtimeD t0 x))) := by
    unfold Filesystem.renameF
    simp only [hso, hsn, hgo, hgn, hx]
  have hsnd : (Filesystem.renameF t0 t old new).2 =
      updateAt (updateAt t oppC (rmChild t0 onm)) nppC
        (addChild t0 nnm (setCtimeD t0 x)) := by
    rw [hfa]
    show updateAt (updateAt t (pathComps oppS) (rmChild t0 onm))
        (pathComps nppS) (addChild t0 nnm (setCtimeD t0 x)) = _
    rw [updateAt_skips_empty t, hcoP,
      updateAt_skips_empty _ (pathComps nppS), hcnP]
  obtain ⟨hA, hB⟩ := rename_core t0 t oppC nppC onm nnm oa na ofd nfd och
    nch x hon hnn hclo hcln hO hN hnd h3 h4 hne
  refine ⟨by rw [hfa], ?_, ?_⟩
  · show getNode (Filesystem.renameF t0 t old new).2 (pathComps old) = _
    rw [hsnd, getNode_skips_empty, hfold]
    exact hA
  · show getNode (Filesystem.renameF t0 t old new).2 (pathComps new) = _
    rw [hsnd, getNode_skips_empty, hfnew]
    exact hB

/-- C5 witness: moving `/a/x` to `/b/y` in the concrete tree `wRoot`
satisfies every hypothesis of the amended claim, the old path then fails
with NotFound, and the new path resolves to the moved file with its
`st_ctime` rewritten. -/
theorem C5_witness :
    (Filesystem.renameF 0 wRoot "/a/x" "/b/y").1 = .ok () ∧
    getNodeP (Filesystem.renameF 0 wRoot "/a/x" "/b/y").2 "/a/x" =
      .error .enoent ∧
    getNodeP (Filesystem.renameF 0 wRoot "/a/x" "/b/y").2 "/b/y" =
      .ok (setCtimeD 0 wFile) :=
  C5_rename_moves_node 0 wRoot "/a/x" "/b/y" "/a" "/b" "x" "y" ["a"] ["b"]
    (attrOf wDirA) (attrOf wDirB) 0 0 [("x", wFile)] [] wFile
    rfl rfl rfl rfl rfl rfl (by decide) (by decide) (by decide) (by decide)
    rfl rfl rfl (by decide) (by decide) (by decide) (by decide)

theorem createOp_atomic (t0 uid gid now mode : Nat) (nm : String) (p : Node)
    (e : Err) (h : (Directory.createOp t0 uid gid now mode nm p).1 = .error e)
    (he : e ≠ .crash) : (Directory.createOp t0 uid gid now mode nm p).2 = p := by
  cases p with
  | dir a1 fd ch => exact Except.noConfusion h
  | file a1 fd c => exact absurd (Except.error.inj h).symm he
  | symlink a1 tg => exact absurd (Except.error.inj h).symm he

theorem mkdirOp_atomic (t0 uid gid now mode : Nat) (nm : String) (p : Node)
    (e : Err) (h : (Directory.mkdirOp t0 uid gid now mode nm p).1 = .error e)
    (he : e ≠ .crash) : (Directory.mkdirOp t0 uid gid now mode nm p).2 = p := by
  cases p with
  | dir a1 fd ch =>
    simp only [Directory.mkdirOp] at h
    cases hk : look (aset a1 "st_mode" (.int ((mode ||| S_IFDIR : Nat) : Int)))
        "st_nlink" with
    | some v =>
      cases v with
      | int i => simp only [hk] at h; exact Except.noConfusion h
      | bytes bs => simp only [hk] at h; exact absurd (Except.error.inj h).symm he
    | none => simp only [hk] at h; exact absurd (Except.error.inj h).symm he
  | file a1 fd c => exact absurd (Except.error.inj h).symm he
  | symlink a1 tg => exact absurd (Except.error.inj h).symm he

theorem rmdirOp_atomic (t0 : Nat) (nm : String) (p : Node) (e : Err)
    (h : (Directory.rmdirOp t0 nm p).1 = .error e)
    (he : e ≠ .crash) : (Directory.rmdirOp t0 nm p).2 = p := by
  cases p with
  | dir a1 fd ch =>
    simp only [Directory.rmdirOp] at h ⊢
    cases hl : look ch nm with
    | none => simp only [hl]
    | some c =>
      simp only [hl] at h ⊢
      cases hk : look a1 "st_nlink" with
      | some v =>
        cases v with
        | int i => simp only [hk] at h; exact Except.noConfusion h
        | bytes bs =>
          simp only [hk] at h; exact absurd (Except.error.inj h).symm he
      | none => simp only [hk] at h; exact absurd (Except.error.inj h).symm he
  | file a1 fd c => exact absurd (Except.error.inj h).symm he
  | symlink a1 tg => exact absurd (Except.error.inj h).symm he

theorem unlinkOp_atomic (t0 : Nat) (nm : String) (p : Node) (e : Err)
    (h : (Directory.unlinkOp t0 nm p).1 = .error e)
    (he : e ≠ .crash) : (Directory.unlinkOp t0 nm p).2 = p := by
  cases p with
  | dir a1 fd ch =>
    simp only [Directory.unlinkOp] at h ⊢
    cases hl : look ch nm with
    | none => simp only [hl]
    | some c => simp only [hl] at h; exact Except.noConfusion h
  | file a1 fd c => exact absurd (Except.error.inj h).symm he
  | symlink a1 tg => exact absurd (Except.error.inj h).symm he

theorem symlinkOp_atomic (t0 uid gid now : Nat) (nm tgt : String) (p : Node)
    (e : Err) (h : (Directory.symlinkOp t0 uid gid now nm tgt p).1 = .error e)
    (he : e ≠ .crash) : (Directory.symlinkOp t0 uid gid now nm tgt p).2 = p := by
  cases p with
  | dir a1 fd ch => exact Except.noConfusion h
  | file a1 fd c => exact absurd (Except.error.inj h).symm he
  | symlink a1 tg => exact absurd (Except.error.inj h).symm he

/-- C10: facade operations are atomic on FUSE errors.  Whenever one of the
entry points create, mkdir, unlink, rmdir, rename, symlink, open, read,
write, truncate, getxattr, removexattr, utimes raises NotFound (ENOENT),
PermissionDenied (EPERM) or NoSuchAttribute (ENOATTR) — i.e. any modelled
error other than an uncaught-exception crash — the returned tree is exactly
the input tree. -/
theorem C10_error_atomicity (t0 uid gid now mode size offset flags : Nat)
    (t : Node) (path new tgt nm : String) (buffer : List Nat)
    (times : Option (Int × Int)) (e : Err) (he : e ≠ .crash) :
    ((Filesystem.createF t0 uid gid now t path mode).1 = .error e →
      (Filesystem.createF t0 uid gid now t path mode).2 = t) ∧
    ((Filesystem.mkdirF t0 uid gid now t path mode).1 = .error e →
      (Filesystem.mkdirF t0 uid gid now t path mode).2 = t) ∧
    ((Filesystem.unlinkF t0 t path).1 = .error e →
      (Filesystem.unlinkF t0 t path).2 = t) ∧
    ((Filesystem.rmdirF t0 t path).1 = .error e →
      (Filesystem.rmdirF t0 t path).2 = t) ∧
    ((Filesystem.renameF t0 t path new).1 = .error e →
      (Filesystem.renameF t0 t path new).2 = t) ∧
    ((Filesystem.symlinkF t0 uid gid now t path tgt).1 = .error e →
      (Filesystem.symlinkF t0 uid gid now t path tgt).2 = t) ∧
    ((Filesystem.openF t path flags).1 = .error e →
      (Filesystem.openF t path flags).2 = t) ∧
    ((Filesystem.readF t0 t path size offset).1 = .error e →
      (Filesystem.readF t0 t path size offset).2 = t) ∧
    ((Filesystem.writeF t0 t path buffer offset).1 = .error e →
      (Filesystem.writeF t0 t path buffer offset).2 = t) ∧
    ((Filesystem.truncateF t0 t path size).1 = .error e →
      (Filesystem.truncateF t0 t path size).2 = t) ∧
    ((Filesystem.getxattrF t path nm).1 = .error e →
      (Filesystem.getxattrF t path nm).2 = t) ∧
    ((Filesystem.removexattrF t path nm).1 = .error e →
      (Filesystem.removexattrF t path nm).2 = t) ∧
    ((Filesystem.utimesF t path times).1 = .error e →
      (Filesystem.utimesF t path times).2 = t) := by
  refine ⟨?_, ?_, ?_, ?_, ?_, ?_, ?_, ?_, ?_, ?_, ?_, ?_, ?_⟩
  · intro h
    unfold Filesystem.createF at h ⊢
    rcases hsp : splitPath path with ⟨pp, nm2⟩
    simp only [hsp] at h ⊢
    cases hg : getNodeP t pp with
    | error e2 => simp [hg] at h ⊢
    | ok p =>
      simp only [hg] at h ⊢
      have h2 : (Directory.createOp t0 uid gid now mode nm2 p).1 = .error e := h
      show updateAt t (pathComps pp)
        (fun _ => (Directory.createOp t0 uid gid now mode nm2 p).2) = t
      exact updateAt_congr_id t p (pathComps pp) _ hg
        (createOp_atomic t0 uid gid now mode nm2 p e h2 he)
  · intro h
    unfold Filesystem.mkdirF at h ⊢
    rcases hsp : splitPath path with ⟨pp, nm2⟩
    simp only [hsp] at h ⊢
    cases hg : getNodeP t pp with
    | error e2 => simp [hg] at h ⊢
    | ok p =>
      simp only [hg] at h ⊢
      have h2 : (Directory.mkdirOp t0 uid gid now mode nm2 p).1 = .error e := h
      show updateAt t (pathComps pp)
        (fun _ => (Directory.mkdirOp t0 uid gid now mode nm2 p).2) = t
      exact updateAt_congr_id t p (pathComps pp) _ hg
        (mkdirOp_atomic t0 uid gid now mode nm2 p e h2 he)
  · intro h
    unfold Filesystem.unlinkF at h ⊢
    rcases hsp : splitPath path with ⟨pp, nm2⟩
    simp only [hsp] at h ⊢
    cases hg : getNodeP t pp with
    | error e2 => simp [hg] at h ⊢
    | ok p =>
      simp only [hg] at h ⊢
      have h2 : (Directory.unlinkOp t0 nm2 p).1 = .error e := h
      show updateAt t (pathComps pp)
        (fun _ => (Directory.unlinkOp t0 nm2 p).2) = t
      exact updateAt_congr_id t p (pathComps pp) _ hg
        (unlinkOp_atomic t0 nm2 p e h2 he)
  · intro h
    unfold Filesystem.rmdirF at h ⊢
    rcases hsp : splitPath path with ⟨pp, nm2⟩
    simp only [hsp] at h ⊢
    cases hg : getNodeP t pp with
    | error e2 => simp [hg] at h ⊢
    | ok p =>
      simp only [hg] at h ⊢
      have h2 : (Directory.rmdirOp t0 nm2 p).1 = .error e := h
      show updateAt t (pathComps pp)
        (fun _ => (Directory.rmdirOp t0 nm2 p).2) = t
      exact updateAt_congr_id t p (pathComps pp) _ hg
        (rmdirOp_atomic t0 nm2 p e h2 he)
  · intro h
    unfold Filesystem.renameF at h ⊢
    rcases hs1 : splitPath path with ⟨opp, on2⟩
    rcases hs2 : splitPath new with ⟨npp, nn2⟩
    simp only [hs1, hs2] at h ⊢
    cases hg1 : getNodeP t opp with
    | error e2 => simp [hg1] at h ⊢
    | ok opN =>
      simp only [hg1] at h ⊢
      cases hg2 : getNodeP t npp with
      | error e2 => simp [hg2] at h ⊢
      | ok npN =>
        simp only [hg2] at h ⊢
        cases opN with
        | dir a1 fd ch =>
          cases hl : look ch on2 with
          | none => simp [hl]
          | some x =>
            simp only [hl] at h ⊢
            cases npN with
            | dir a2 fd2 ch2 => exact Except.noConfusion h
            | file a2 fd2 c2 => exact absurd (Except.error.inj h).symm he
            | symlink a2 tg2 => exact absurd (Except.error.inj h).symm he
        | file a1 fd c => exact absurd (Except.error.inj h).symm he
        | symlink a1 tg => exact absurd (Except.error.inj h).symm he
  · intro h
    unfold Filesystem.symlinkF at h ⊢
    rcases hsp : splitPath path with ⟨pp, nm2⟩
    simp only [hsp] at h ⊢
    cases hg : getNodeP t pp with
    | error e2 => simp [hg] at h ⊢
    | ok p =>
      simp only [hg] at h ⊢
      have h2 : (Directory.symlinkOp t0 uid gid now nm2 tgt p).1 = .error e := h
      show updateAt t (pathComps pp)
        (fun _ => (Directory.symlinkOp t0 uid gid now nm2 tgt p).2) = t
      exact updateAt_congr_id t p (pathComps pp) _ hg
        (symlinkOp_atomic t0 uid gid now nm2 tgt p e h2 he)
  · intro h
    unfold Filesystem.openF at h ⊢
    cases hg : getNodeP t path with
    | error e2 => simp [hg] at h ⊢
    | ok n =>
      cases n with
      | file a1 fd c => simp only [hg] at h; exact Except.noConfusion h
      | dir a1 fd ch =>
        simp only [hg] at h; exact absurd (Except.error.inj h).symm he
      | symlink a1 tg =>
        simp only [hg] at h; exact absurd (Except.error.inj h).symm he
  · intro h
    unfold Filesystem.readF at h ⊢
    cases hg : getNodeP t path with
    | error e2 => simp [hg] at h ⊢
    | ok n =>
      cases n with
      | file a1 fd c => simp only [hg] at h; exact Except.noConfusion h
      | dir a1 fd ch =>
        simp only [hg] at h; exact absurd (Except.error.inj h).symm he
      | symlink a1 tg =>
        simp only [hg] at h; exact absurd (Except.error.inj h).symm he
  · intro h
    unfold Filesystem.writeF at h ⊢
    cases hg : getNodeP t path with
    | error e2 => simp [hg] at h ⊢
    | ok n =>
      cases n with
      | file a1 fd c => simp only [hg] at h; exact Except.noConfusion h
      | dir a1 fd ch =>
        simp only [hg] at h; exact absurd (Except.error.inj h).symm he
      | symlink a1 tg =>
        simp only [hg] at h; exact absurd (Except.error.inj h).symm he
  · intro h
    unfold Filesystem.truncateF at h ⊢
    cases hg : getNodeP t path with
    | error e2 => simp [hg] at h ⊢
    | ok n =>
      cases n with
      | file a1 fd c => simp only [hg] at h; exact Except.noConfusion h
      | dir a1 fd ch =>
        simp only [hg] at h; exact absurd (Except.error.inj h).symm he
      | symlink a1 tg =>
        simp only [hg] at h; exact absurd (Except.error.inj h).symm he
  · intro _
    unfold Filesystem.getxattrF
    cases hg : getNodeP t path with
    | error e2 => simp [hg]
    | ok n => simp [hg]
  · intro h
    unfold Filesystem.removexattrF at h ⊢
    cases hg : getNodeP t path with
    | error e2 => simp [hg] at h ⊢
    | ok n =>
      simp only [hg] at h ⊢
      cases hl : look (attrOf n) nm with
      | none => simp [hl]
      | some v => simp only [hl] at h; exact Except.noConfusion h
  · intro _
    unfold Filesystem.utimesF
    cases hg : getNodeP t path with
    | error e2 => simp [hg]
    | ok n => simp [hg]

/-- C10 witness: on the concrete tree `wRoot`, every listed operation at
the unresolvable path `/nope/x` reports ENOENT and returns the tree
unchanged. -/
theorem C10_witness :
    (Filesystem.createF 0 0 0 9 wRoot "/nope/x" 448).2 = wRoot ∧
    (Filesystem.mkdirF 0 0 0 9 wRoot "/nope/x" 448).2 = wRoot ∧
    (Filesystem.unlinkF 0 wRoot "/nope/x").2 = wRoot ∧
    (Filesystem.rmdirF 0 wRoot "/nope/x").2 = wRoot ∧
    (Filesystem.renameF 0 wRoot "/nope/x" "/b/y").2 = wRoot ∧
    (Filesystem.symlinkF 0 0 0 9 wRoot "/nope/x" "sl").2 = wRoot ∧
    (Filesystem.openF wRoot "/nope/x" 0).2 = wRoot ∧
    (Filesystem.readF 0 wRoot "/nope/x" 4 0).2 = wRoot ∧
    (Filesystem.writeF 0 wRoot "/nope/x" [9] 0).2 = wRoot ∧
    (Filesystem.truncateF 0 wRoot "/nope/x" 4).2 = wRoot ∧
    (Filesystem.getxattrF wRoot "/nope/x" "user.k").2 = wRoot ∧
    (Filesystem.removexattrF wRoot "/nope/x" "user.k").2 = wRoot ∧
    (Filesystem.utimesF wRoot "/nope/x" none).2 = wRoot := by
  obtain ⟨h1, h2, h3, h4, h5, h6, h7, h8, h9, h10, h11, h12, h13⟩ :=
    C10_error_atomicity 0 0 0 9 448 4 0 0 wRoot "/nope/x" "/b/y" "sl"
      "user.k" [9] none .enoent (by decide)
  exact ⟨h1 (by decide), h2 (by decide), h3 (by decide), h4 (by decide),
    h5 (by decide), h6 (by decide), h7 (by decide), h8 (by decide),
    h9 (by decide), h10 (by decide), h11 (by decide), h12 (by decide),
    h13 (by decide)⟩
